import Mathlib

/-!
# ObjectDetector: the per-frame pipeline of `ObjectDetector.cpp`

A shallow embedding of `ObjectDetector::analyzeFrame` and `ObjectDetector::drawBoxes`.

Conventions of the embedding.

* A C++ `int` is a Lean `Int`; frame dimensions and pixel coordinates stay far inside the
  32-bit range, so no wrap-around is modelled.
* A finite C++ `float` or `double` is the rational number it denotes (`ℚ`); infinities and NaN are
  not values of the model.
* The floating operations whose result the code converts to an `int` in the resize step and in the
  decoding loop are modelled operation by operation with the rounding of IEEE 754 (round to nearest,
  ties to even): `fl32` for binary32 and `fl64` for binary64. An `int` converts to `double` exactly.
* The scale factor of `drawBoxes`, the label rectangle derived from it and the frame rate are
  computed from the exact values of their expressions.
* A conversion from a floating value to `int` truncates toward zero (`truncToInt`).
* A `cv::Mat` is its header: the two dimensions and the identity of the pixel buffer it refers to.
  Pixel contents are not modelled; what is drawn on a frame is recorded as a list of `DrawOp`.
* `std::vector::operator[]` is unchecked: an index outside the vector is undefined behaviour,
  which is an outcome of its own (`Outcome.undefinedBehaviour`), distinct from a thrown exception.
-/

namespace ObjectDetector

/-! ## Values -/

/-- Conversion of a floating value to `int`: the fractional part is discarded
(truncation toward zero). -/
def truncToInt (q : ℚ) : Int := Int.tdiv q.num q.den

/-- The integers that a 32-bit `int` can hold. A conversion to `int`, or an `int` subtraction, whose
result is outside this range has undefined behaviour. -/
def fitsInt (z : Int) : Prop := -2147483648 ≤ z ∧ z ≤ 2147483647

instance (z : Int) : Decidable (fitsInt z) := by
  unfold fitsInt; infer_instance

/-- Nearest integer to a rational, a tie going to the even neighbour. -/
def roundHalfEven (y : ℚ) : Int :=
  let f : Int := ⌊y⌋
  let r : ℚ := y - f
  if r < 1 / 2 then f
  else if 1 / 2 < r then f + 1
  else if f % 2 = 0 then f else f + 1

/-- Rounding of a rational to the nearest value of a binary floating format with `p` significant
bits and least normal exponent `emin`, ties to even. Below `2 ^ emin` the spacing is that of the
subnormal numbers; overflow to infinity is not modelled. -/
def roundToFormat (p : Nat) (emin : Int) (x : ℚ) : ℚ :=
  if x = 0 then 0
  else
    let e : Int := max (Int.log 2 |x|) emin
    let ulp : ℚ := (2 : ℚ) ^ (e - ((p : Int) - 1))
    (roundHalfEven (x / ulp) : ℚ) * ulp

/-- Rounding to binary32, the format of `float`. -/
def fl32 (x : ℚ) : ℚ := roundToFormat 24 (-126) x

/-- Rounding to binary64, the format of `double`. -/
def fl64 (x : ℚ) : ℚ := roundToFormat 53 (-1022) x

/-- The header of a `cv::Mat`: `cols`, `rows` and the identity of the pixel buffer `data`. -/
structure Mat where
  cols : Int
  rows : Int
  data : Nat
deriving DecidableEq, Repr

/-- The type `cv::Size`. -/
structure Size where
  width : Int
  height : Int
deriving DecidableEq, Repr

/-- The type `cv::Point`. -/
structure Point where
  x : Int
  y : Int
deriving DecidableEq, Repr

/-- The type `cv::Rect`: top-left corner, width and height. -/
structure Rect where
  x : Int
  y : Int
  width : Int
  height : Int
deriving DecidableEq, Repr

/-- What running a piece of the C++ code can lead to: normal completion with a value, an exception
that propagates out of it, or undefined behaviour. -/
inductive Outcome (α : Type) where
  | done (a : α)
  | raised (what : String)
  | undefinedBehaviour
deriving DecidableEq, Repr

/-- A deep copy `m.clone()`: same dimensions, pixel data in the buffer `buf`. -/
def Mat.clone (m : Mat) (buf : Nat) : Mat := { m with data := buf }

/-- The call `cv::resize(src, dst, dsize, ...)`: the destination has the requested size; `buf` is the
buffer that holds the resized pixels. -/
def resize (_src : Mat) (dsize : Size) (buf : Nat) : Mat :=
  { cols := dsize.width, rows := dsize.height, data := buf }

/-! ## The resize step of `analyzeFrame` (lines 141-170) -/

/-- The condition of the first branch (lines 141-142): the frame is not square and its larger
dimension exceeds 600. -/
def nonSquareOversized (cols rows : Int) : Prop :=
  (cols > 600 ∧ cols > rows) ∨ (rows > 600 ∧ rows > cols)

instance (cols rows : Int) : Decidable (nonSquareOversized cols rows) := by
  unfold nonSquareOversized; infer_instance

/-- The condition of the second branch (line 153): the frame is square with an edge above 600. -/
def squareOversized (cols rows : Int) : Prop :=
  rows > 600 ∧ rows = cols

instance (cols rows : Int) : Decidable (squareOversized cols rows) := by
  unfold squareOversized; infer_instance

/-- The variables the resize step leaves behind: the frame given to the network (`currentFrame`),
the frame kept for drawing (`unalteredFrame`) and the recorded dimensions. -/
structure Normalized where
  currentFrame : Mat
  unalteredFrame : Mat
  currentFrameRows : Int
  currentFrameCols : Int
deriving DecidableEq, Repr

/-- The resize step of `analyzeFrame`. `cloneBuf` is the buffer `clone()` allocates and `resizeBuf`
the one `cv::resize` writes to. The width of line 145 is a `double` quotient and a `double` product,
each rounded, then truncated. -/
def normalizeFrame (currentFrame : Mat) (cloneBuf resizeBuf : Nat) : Normalized :=
  if nonSquareOversized currentFrame.cols currentFrame.rows then
    let unalteredFrame := currentFrame.clone cloneBuf
    let width : Int :=
      truncToInt (fl64 (fl64 (600 / (currentFrame.rows : ℚ)) * (currentFrame.cols : ℚ)))
    let height : Int := 600
    let newDimension : Size := { width := width, height := height }
    { currentFrame := resize currentFrame newDimension resizeBuf
      unalteredFrame := unalteredFrame
      currentFrameRows := unalteredFrame.rows
      currentFrameCols := unalteredFrame.cols }
  else if squareOversized currentFrame.cols currentFrame.rows then
    let unalteredFrame := currentFrame.clone cloneBuf
    let width : Int := 600
    let height : Int := 600
    let newDimension : Size := { width := width, height := height }
    { currentFrame := resize currentFrame newDimension resizeBuf
      unalteredFrame := unalteredFrame
      currentFrameRows := unalteredFrame.rows
      currentFrameCols := unalteredFrame.cols }
  else
    let unalteredFrame := currentFrame
    { currentFrame := currentFrame
      unalteredFrame := unalteredFrame
      currentFrameRows := unalteredFrame.rows
      currentFrameCols := unalteredFrame.cols }

/-! ## The decoding loop of `analyzeFrame` (lines 179-201) -/

/-- One row of the detection grid `detectionResults`: its seven `float` columns. -/
structure Row where
  c0 : ℚ
  c1 : ℚ
  c2 : ℚ
  c3 : ℚ
  c4 : ℚ
  c5 : ℚ
  c6 : ℚ
deriving DecidableEq, Repr

/-- The three vectors the decoding loop fills. -/
structure Decoded where
  boxes : List Rect
  confidences : List ℚ
  labels : List String
deriving DecidableEq, Repr

/-- Nearest natural number to a non-negative rational, a tie going to the even neighbour. -/
def roundNat (y : ℚ) : Nat :=
  let f : Nat := (Int.tdiv y.num y.den).toNat
  let r : ℚ := y - f
  if r < 1 / 2 then f
  else if 1 / 2 < r then f + 1
  else if f % 2 = 0 then f else f + 1

/-- The digits of `k` in base ten, padded with zeros on the left to six characters. -/
def pad6 (k : Nat) : String :=
  let d := toString k
  String.mk (List.replicate (6 - d.length) '0') ++ d

/-- The library function `std::to_string` on a floating value: fixed notation with six decimals. -/
def to_string (x : ℚ) : String :=
  let n : Nat := roundNat (|x| * 1000000)
  (if x < 0 then "-" else "") ++ toString (n / 1000000) ++ "." ++ pad6 (n % 1000000)

/-- The rectangle built at lines 186-194 from a row and the recorded frame dimensions. Each
coordinate is a `float` product: the `int` dimension is converted to `float`, the product is
rounded to `float`, and the result is truncated. -/
def rowBox (currentFrameCols currentFrameRows : Int) (r : Row) : Rect :=
  let left : Int := truncToInt (fl32 (r.c3 * fl32 (currentFrameCols : ℚ)))
  let top : Int := truncToInt (fl32 (r.c4 * fl32 (currentFrameRows : ℚ)))
  let right : Int := truncToInt (fl32 (r.c5 * fl32 (currentFrameCols : ℚ)))
  let bottom : Int := truncToInt (fl32 (r.c6 * fl32 (currentFrameRows : ℚ)))
  let width : Int := right - left
  let height : Int := bottom - top
  { x := left, y := top, width := width, height := height }

/-- The four conversions of lines 186-189 and the two subtractions of lines 191-192 stay in the
range of `int` for this row, so that each of them is defined. -/
def boxDefined (currentFrameCols currentFrameRows : Int) (r : Row) : Prop :=
  fitsInt (truncToInt (fl32 (r.c3 * fl32 (currentFrameCols : ℚ)))) ∧
  fitsInt (truncToInt (fl32 (r.c4 * fl32 (currentFrameRows : ℚ)))) ∧
  fitsInt (truncToInt (fl32 (r.c5 * fl32 (currentFrameCols : ℚ)))) ∧
  fitsInt (truncToInt (fl32 (r.c6 * fl32 (currentFrameRows : ℚ)))) ∧
  fitsInt (truncToInt (fl32 (r.c5 * fl32 (currentFrameCols : ℚ))) -
    truncToInt (fl32 (r.c3 * fl32 (currentFrameCols : ℚ)))) ∧
  fitsInt (truncToInt (fl32 (r.c6 * fl32 (currentFrameRows : ℚ))) -
    truncToInt (fl32 (r.c4 * fl32 (currentFrameRows : ℚ))))

/-- The position in `m_classes` that line 198 reads: column 1 converted to an integer. -/
def classIndex (r : Row) : Int := truncToInt r.c1

/-- The label built at lines 198-200 from the class name found in `m_classes`. -/
def rowLabel (className : String) (confidence : ℚ) : String :=
  let label := className.capitalize
  label ++ ":" ++ (to_string confidence).take 4

/-- The unchecked access `m_classes[i]`: `none` stands for an index outside the vector. -/
def classAt (m_classes : List String) (i : Int) : Option String :=
  if 0 ≤ i then m_classes.get? i.toNat else none

/-- The decoding loop over the rows that remain, from the vectors filled so far. -/
def decodeLoop (m_classes : List String) (m_confidenceTreshold : ℚ)
    (currentFrameCols currentFrameRows : Int) : List Row → Decoded → Outcome Decoded
  | [], acc => Outcome.done acc
  | r :: rest, acc =>
    let confidence := r.c2
    if confidence < m_confidenceTreshold then
      decodeLoop m_classes m_confidenceTreshold currentFrameCols currentFrameRows rest acc
    else
      let rectangle := rowBox currentFrameCols currentFrameRows r
      match classAt m_classes (classIndex r) with
      | none => Outcome.undefinedBehaviour
      | some className =>
        decodeLoop m_classes m_confidenceTreshold currentFrameCols currentFrameRows rest
          { boxes := acc.boxes ++ [rectangle]
            confidences := acc.confidences ++ [confidence]
            labels := acc.labels ++ [rowLabel className confidence] }

/-! ## The suppression step (line 204) -/

/-- Modelled from the spec: a detection candidate handed to the suppression stage, with its
position in `boxes`, its box and its confidence (section 3; the body of `cv::dnn::NMSBoxes` is not
part of the sources). -/
structure Candidate where
  index : Nat
  box : Rect
  confidence : ℚ
deriving DecidableEq, Repr

/-- Modelled from the spec: the area of a rectangle, as used by the Intersection-over-Union of the
suppression stage (the body of `cv::dnn::NMSBoxes` is not part of the sources). -/
def area (r : Rect) : ℚ := (r.width : ℚ) * (r.height : ℚ)

/-- Modelled from the spec: the area of the overlap of two axis-aligned rectangles (glossary entry
IoU; the body of `cv::dnn::NMSBoxes` is not part of the sources). -/
def intersectionArea (a b : Rect) : ℚ :=
  let w : Int := min (a.x + a.width) (b.x + b.width) - max a.x b.x
  let h : Int := min (a.y + a.height) (b.y + b.height) - max a.y b.y
  ((max w 0 : Int) : ℚ) * ((max h 0 : Int) : ℚ)

/-- Modelled from the spec: Intersection-over-Union, the ratio of the overlapping area to the
combined area of two rectangles; a zero-area box has IoU 0 with everything (section 4.3 and the
glossary; the body of `cv::dnn::NMSBoxes` is not part of the sources). -/
def iou (a b : Rect) : ℚ :=
  if area a = 0 ∨ area b = 0 then 0
  else intersectionArea a b / (area a + area b - intersectionArea a b)

/-- Modelled from the spec: insertion of a later-discovered candidate into a list ordered by
descending confidence; on equal confidence the earlier candidate stays in front (section 4.3,
tie-break; the body of `cv::dnn::NMSBoxes` is not part of the sources). -/
def insertByConfidence (c : Candidate) : List Candidate → List Candidate
  | [] => [c]
  | d :: ds => if d.confidence < c.confidence then c :: d :: ds else d :: insertByConfidence c ds

/-- Modelled from the spec: the candidates sorted by descending confidence (section 4.3; the body
of `cv::dnn::NMSBoxes` is not part of the sources). -/
def sortByConfidence (cs : List Candidate) : List Candidate :=
  cs.foldl (fun sorted c => insertByConfidence c sorted) []

/-- Modelled from the spec: greedy suppression on candidates sorted by descending confidence:
accept the first, discard every remaining one whose IoU with it is at least `nmsThreshold`,
repeat until none remains (section 4.3; the body of `cv::dnn::NMSBoxes` is not part of the
sources). -/
def greedySuppress (nmsThreshold : ℚ) : List Candidate → List Candidate
  | [] => []
  | c :: rest =>
    c :: greedySuppress nmsThreshold (rest.filter (fun d => ¬ nmsThreshold ≤ iou c.box d.box))
termination_by cs => cs.length
decreasing_by
  simp only [List.length_cons]
  exact Nat.lt_succ_of_le (List.length_filter_le _ _)

/-- Modelled from the spec: the candidates of the two parallel vectors `boxes` and `confidences`,
each with its position (section 4.3; the body of `cv::dnn::NMSBoxes` is not part of the
sources). -/
def candidates (boxes : List Rect) (confidences : List ℚ) : List Candidate :=
  (List.zip (List.range boxes.length) (List.zip boxes confidences)).map
    (fun t => { index := t.1, box := t.2.1, confidence := t.2.2 })

/-- Modelled from the spec: the suppression stage `suppress(boxes, confidences,
confidenceThreshold, nmsThreshold)` of section 4.3, which stands for the library call
`cv::dnn::NMSBoxes` whose body is not part of the sources: confidence thresholding (a candidate
below the threshold is excluded), then greedy suppression in order of descending confidence;
the result is the list of accepted positions. -/
def NMSBoxes (boxes : List Rect) (confidences : List ℚ) (confidenceThreshold nmsThreshold : ℚ) :
    List Nat :=
  let kept := (candidates boxes confidences).filter (fun c => ¬ c.confidence < confidenceThreshold)
  (greedySuppress nmsThreshold (sortByConfidence kept)).map (fun c => c.index)

/-! ## Drawing (`drawBoxes`, lines 231-255) -/

/-- The type `cv::Scalar`, as far as the colours used here need it. -/
structure Scalar where
  v0 : Nat
  v1 : Nat
  v2 : Nat
deriving DecidableEq, Repr

/-- A drawing call made on the output frame. A `thickness` of `-1` is `cv::FILLED`. -/
inductive DrawOp where
  | rectangle (rec : Rect) (color : Scalar) (thickness : Int)
  | putText (text : String) (org : Point) (fontScale : ℚ) (color : Scalar) (thickness : Int)
deriving DecidableEq, Repr

/-- The scale factor of lines 243-248, from the height of the box and the height of the label at
font scale 1. -/
def scaleFactor (boxHeight labelHeight : Int) : ℚ :=
  let scaleFactor : ℚ := ((boxHeight : ℚ) * (1 / 10)) / (labelHeight : ℚ)
  if scaleFactor < 1 then 1
  else if scaleFactor > 3 then 3
  else scaleFactor

/-- One iteration of the loop of `drawBoxes` (lines 240-253) for a box and its label.
`getTextSize` is `cv::getTextSize` at font `FONT_HERSHEY_SIMPLEX`, scale 1 and thickness 2; it gives
the size of the text and the baseline. -/
def drawBox (getTextSize : String → Size × Int) (box : Rect) (label : String) : List DrawOp :=
  let labelSize := (getTextSize label).1
  let baseline := (getTextSize label).2
  let scaleFactor := scaleFactor box.height labelSize.height
  let labelRectangle : Rect :=
    { x := box.x
      y := truncToInt ((box.y : ℚ) - (((labelSize.height : ℚ) * scaleFactor) + (baseline : ℚ)))
      width := truncToInt ((labelSize.width : ℚ) * scaleFactor)
      height := truncToInt (((labelSize.height : ℚ) * scaleFactor) + (baseline : ℚ)) }
  [ DrawOp.rectangle box { v0 := 0, v1 := 255, v2 := 0 } 2,
    DrawOp.rectangle labelRectangle { v0 := 0, v1 := 255, v2 := 0 } (-1),
    DrawOp.putText label { x := box.x, y := box.y - baseline } scaleFactor
      { v0 := 0, v1 := 0, v2 := 0 } 2 ]

/-- The method `drawBoxes`: the drawing calls for the accepted boxes, in the order of the accepted
positions. `boxes[index]` and `labels[index]` are unchecked. -/
def drawBoxes (getTextSize : String → Size × Int) (boxes : List Rect) (labels : List String) :
    List Nat → Outcome (List DrawOp)
  | [] => Outcome.done []
  | index :: rest =>
    match boxes.get? index, labels.get? index with
    | some box, some label =>
      match drawBoxes getTextSize boxes labels rest with
      | Outcome.done ops => Outcome.done (drawBox getTextSize box label ++ ops)
      | Outcome.raised what => Outcome.raised what
      | Outcome.undefinedBehaviour => Outcome.undefinedBehaviour
    | _, _ => Outcome.undefinedBehaviour

/-! ## The frame counter (lines 126-128 and 207-216) -/

/-- The three `static` variables of `analyzeFrame`. `lastTime` is a reading of
`std::chrono::high_resolution_clock`, counted in nanoseconds. -/
structure FpsState where
  lastTime : Int
  frameCount : Int
  fps : ℚ
deriving DecidableEq, Repr

/-- The initial values of the `static` variables, set when `analyzeFrame` is first entered at
time `now`. -/
def FpsState.initial (now : Int) : FpsState :=
  { lastTime := now, frameCount := 0, fps := 0 }

/-- The conversion `duration_cast<milliseconds>` of a span of nanoseconds, followed by `count()`:
whole milliseconds, the rest discarded. -/
def durationCastMilliseconds (nanoseconds : Int) : Int := Int.tdiv nanoseconds 1000000

/-- The seconds between two clock readings as line 210 computes them. -/
def elapsedSeconds (lastTime currentTime : Int) : ℚ :=
  (durationCastMilliseconds (currentTime - lastTime) : ℚ) / 1000

/-- Lines 208-216: the update of the `static` variables when a frame has been processed and the
clock reads `currentTime`. -/
def updateFps (s : FpsState) (currentTime : Int) : FpsState :=
  let frameCount := s.frameCount + 1
  let elapsed : ℚ := elapsedSeconds s.lastTime currentTime
  if elapsed ≥ 1 then
    { lastTime := currentTime, frameCount := 0, fps := (frameCount : ℚ) / elapsed }
  else
    { lastTime := s.lastTime, frameCount := frameCount, fps := s.fps }

/-! ## The method `analyzeFrame` (lines 124-229) -/

/-- The state `analyzeFrame` leaves behind: the variables of the resize step, the three decoded
vectors, the accepted positions, the drawing calls made on the output frame, the `static` variables
and the frame handed back to the caller. -/
structure FrameResult where
  normalized : Normalized
  decoded : Decoded
  indices : List Nat
  drawn : List DrawOp
  statics : FpsState
  currentFrame : Mat
deriving DecidableEq, Repr

/-- The method `analyzeFrame`. `forward` is the network: the detection grid it returns for the frame
it is given. `statics` holds the `static` variables on entry and `currentTime` is the clock reading
at line 208. -/
def analyzeFrame (m_classes : List String) (m_confidenceTreshold m_nmsThreshold : ℚ)
    (forward : Mat → List Row) (getTextSize : String → Size × Int)
    (statics : FpsState) (currentTime : Int)
    (currentFrame : Mat) (cloneBuf resizeBuf : Nat) : Outcome FrameResult :=
  let n := normalizeFrame currentFrame cloneBuf resizeBuf
  let detectionResults := forward n.currentFrame
  match decodeLoop m_classes m_confidenceTreshold n.currentFrameCols n.currentFrameRows
      detectionResults { boxes := [], confidences := [], labels := [] } with
  | Outcome.raised what => Outcome.raised what
  | Outcome.undefinedBehaviour => Outcome.undefinedBehaviour
  | Outcome.done d =>
    let indices := NMSBoxes d.boxes d.confidences m_confidenceTreshold m_nmsThreshold
    match drawBoxes getTextSize d.boxes d.labels indices with
    | Outcome.raised what => Outcome.raised what
    | Outcome.undefinedBehaviour => Outcome.undefinedBehaviour
    | Outcome.done ops =>
      let statics := updateFps statics currentTime
      let fpsText := "FPS: " ++ (to_string statics.fps).take 5
      let textSize := (getTextSize fpsText).1
      let textOrigin : Point := { x := 10, y := textSize.height + 10 }
      Outcome.done
        { normalized := n
          decoded := d
          indices := indices
          drawn := ops ++ [DrawOp.putText fpsText textOrigin 1 { v0 := 255, v1 := 0, v2 := 0 } 2]
          statics := statics
          currentFrame := n.unalteredFrame }


/-! ## Truncation -/

theorem truncToInt_of_nonneg {q : ℚ} (h : 0 ≤ q) : truncToInt q = ⌊q⌋ := by
  unfold truncToInt
  rw [Rat.floor_def, Int.tdiv_eq_ediv (Rat.num_nonneg.mpr h) (Int.ofNat_nonneg _)]

theorem truncToInt_le {q : ℚ} (h : 0 ≤ q) : (truncToInt q : ℚ) ≤ q := by
  rw [truncToInt_of_nonneg h]; exact Int.floor_le q

theorem lt_truncToInt_add_one {q : ℚ} (h : 0 ≤ q) : q < (truncToInt q : ℚ) + 1 := by
  rw [truncToInt_of_nonneg h]; exact Int.lt_floor_add_one q

/-! ## Rounding -/

theorem roundHalfEven_eq_of_near {y : ℚ} {m : Int} (h : |y - (m : ℚ)| < 1 / 2) :
    roundHalfEven y = m := by
  obtain ⟨h1, h2⟩ := abs_lt.mp h
  unfold roundHalfEven
  by_cases hge : (m : ℚ) ≤ y
  · have hf : ⌊y⌋ = m := Int.floor_eq_iff.mpr ⟨hge, by linarith⟩
    simp only [hf]
    rw [if_pos (by linarith)]
  · have hlt : y < m := not_le.mp hge
    have hf : ⌊y⌋ = m - 1 := Int.floor_eq_iff.mpr ⟨by push_cast; linarith, by push_cast; linarith⟩
    simp only [hf]
    have hr : ¬ (y - ((m - 1 : Int) : ℚ) < 1 / 2) := by push_cast; linarith
    have hr2 : (1 : ℚ) / 2 < y - ((m - 1 : Int) : ℚ) := by push_cast; linarith
    rw [if_neg hr, if_pos hr2]
    ring

theorem abs_roundHalfEven_sub_le (y : ℚ) : |(roundHalfEven y : ℚ) - y| ≤ 1 / 2 := by
  have h1 := Int.floor_le y
  have h2 := Int.lt_floor_add_one y
  unfold roundHalfEven
  simp only
  rw [abs_le]
  split_ifs with ha hb hc
  · constructor <;> linarith
  · constructor <;> push_cast <;> linarith
  · have hr : y - (⌊y⌋ : ℚ) = 1 / 2 := le_antisymm (not_lt.mp hb) (not_lt.mp ha)
    constructor <;> linarith
  · have hr : y - (⌊y⌋ : ℚ) = 1 / 2 := le_antisymm (not_lt.mp hb) (not_lt.mp ha)
    constructor <;> push_cast <;> linarith

theorem roundHalfEven_nonneg {y : ℚ} (h : 0 ≤ y) : 0 ≤ roundHalfEven y := by
  have hf : 0 ≤ ⌊y⌋ := Int.floor_nonneg.mpr h
  unfold roundHalfEven
  simp only
  split_ifs <;> omega

theorem log_two_eq_of_bounds {x : ℚ} {e : Int} (h1 : (2 : ℚ) ^ e ≤ x)
    (h2 : x < (2 : ℚ) ^ (e + 1)) : Int.log 2 x = e := by
  have hx : 0 < x := lt_of_lt_of_le (by positivity) h1
  have ha : e ≤ Int.log 2 x := (Int.zpow_le_iff_le_log (by norm_num) hx).mp (by exact_mod_cast h1)
  have hb : Int.log 2 x < e + 1 :=
    (Int.lt_zpow_iff_log_lt (by norm_num) hx).mp (by exact_mod_cast h2)
  omega

/-- A value within half a unit in the last place of `m * 2 ^ e`, in the binade that `e` belongs
to, rounds to `m * 2 ^ e`. -/
theorem roundToFormat_eq_of_near (p : Nat) (emin : Int) {x : ℚ} {m e : Int}
    (hlo : (2 : ℚ) ^ (e + ((p : Int) - 1)) ≤ x) (hhi : x < (2 : ℚ) ^ (e + ((p : Int) - 1) + 1))
    (hemin : emin ≤ e + ((p : Int) - 1))
    (hnear : |x / (2 : ℚ) ^ e - (m : ℚ)| < 1 / 2) :
    roundToFormat p emin x = (m : ℚ) * (2 : ℚ) ^ e := by
  have hpos : 0 < x := lt_of_lt_of_le (by positivity) hlo
  have hlog : Int.log 2 |x| = e + ((p : Int) - 1) := by
    rw [abs_of_pos hpos]; exact log_two_eq_of_bounds hlo hhi
  unfold roundToFormat
  rw [if_neg hpos.ne.symm]
  simp only [hlog, max_eq_left hemin]
  have he : e + ((p : Int) - 1) - ((p : Int) - 1) = e := by ring
  rw [he, roundHalfEven_eq_of_near hnear]

/-- The relative error of a rounding in the normal range is at most `2 ^ (-p)`. -/
theorem abs_roundToFormat_sub_le (p : Nat) (emin : Int) {x : ℚ}
    (hx : (2 : ℚ) ^ emin ≤ |x|) :
    |roundToFormat p emin x - x| ≤ |x| * (2 : ℚ) ^ (-(p : Int)) := by
  have hpos : 0 < |x| := lt_of_lt_of_le (by positivity) hx
  have hx0 : x ≠ 0 := abs_pos.mp hpos
  have hlog : emin ≤ Int.log 2 |x| :=
    (Int.zpow_le_iff_le_log (by norm_num) hpos).mp (by exact_mod_cast hx)
  have hle : (2 : ℚ) ^ (Int.log 2 |x|) ≤ |x| := by
    have := Int.zpow_log_le_self (b := 2) (r := |x|) (by norm_num) hpos
    exact_mod_cast this
  unfold roundToFormat
  rw [if_neg hx0]
  simp only [max_eq_left hlog]
  set ulp : ℚ := (2 : ℚ) ^ (Int.log 2 |x| - ((p : Int) - 1)) with hulp
  have hulp_pos : 0 < ulp := by positivity
  have hr := abs_roundHalfEven_sub_le (x / ulp)
  have hmul : (roundHalfEven (x / ulp) : ℚ) * ulp - x =
      ((roundHalfEven (x / ulp) : ℚ) - x / ulp) * ulp := by
    field_simp
  rw [hmul, abs_mul, abs_of_pos hulp_pos]
  have hhalf : ulp * (1 / 2) = (2 : ℚ) ^ (Int.log 2 |x|) * (2 : ℚ) ^ (-(p : Int)) := by
    rw [hulp, ← zpow_add₀ (by norm_num : (2 : ℚ) ≠ 0)]
    have : (1 : ℚ) / 2 = (2 : ℚ) ^ (-1 : Int) := by norm_num
    rw [this, ← zpow_add₀ (by norm_num : (2 : ℚ) ≠ 0)]
    congr 1
    ring
  calc |(roundHalfEven (x / ulp) : ℚ) - x / ulp| * ulp ≤ (1 / 2) * ulp :=
        mul_le_mul_of_nonneg_right hr hulp_pos.le
    _ = (2 : ℚ) ^ (Int.log 2 |x|) * (2 : ℚ) ^ (-(p : Int)) := by rw [mul_comm, hhalf]
    _ ≤ |x| * (2 : ℚ) ^ (-(p : Int)) := mul_le_mul_of_nonneg_right hle (by positivity)

theorem roundToFormat_nonneg (p : Nat) (emin : Int) {x : ℚ} (h : 0 ≤ x) :
    0 ≤ roundToFormat p emin x := by
  unfold roundToFormat
  split_ifs
  · exact le_refl _
  · simp only
    have h1 : (0 : ℚ) ≤ x / (2 : ℚ) ^ (max (Int.log 2 |x|) emin - ((p : Int) - 1)) := by
      positivity
    have h2 : (0 : ℚ) ≤
        (roundHalfEven (x / (2 : ℚ) ^ (max (Int.log 2 |x|) emin - ((p : Int) - 1))) : ℚ) := by
      exact_mod_cast roundHalfEven_nonneg h1
    positivity

/-- The relative error of a `double` operation on a positive value of moderate size. -/
theorem abs_fl64_sub_le {x : ℚ} (hx : (1 : ℚ) / 2 ^ 32 ≤ x) :
    |fl64 x - x| ≤ x * (1 / 2 ^ 53) := by
  have hpos : 0 < x := lt_of_lt_of_le (by positivity) hx
  have hmin : (2 : ℚ) ^ (-1022 : Int) ≤ |x| := by
    rw [abs_of_pos hpos]
    refine le_trans ?_ hx
    have h1 : (1 : ℚ) / 2 ^ 32 = (2 : ℚ) ^ (-32 : Int) := by norm_num
    rw [h1]
    exact zpow_le_zpow_right₀ (by norm_num) (by norm_num)
  have h := abs_roundToFormat_sub_le 53 (-1022) hmin
  rw [abs_of_pos hpos] at h
  have h2 : (2 : ℚ) ^ (-((53 : Nat) : Int)) = 1 / 2 ^ 53 := by norm_num
  rw [h2] at h
  exact h

theorem fl64_nonneg {x : ℚ} (h : 0 ≤ x) : 0 ≤ fl64 x := roundToFormat_nonneg 53 (-1022) h

/-! ## The resize step -/

theorem normalizeFrame_of_nonSquare {currentFrame : Mat} (cloneBuf resizeBuf : Nat)
    (h : nonSquareOversized currentFrame.cols currentFrame.rows) :
    normalizeFrame currentFrame cloneBuf resizeBuf =
      { currentFrame :=
          { cols :=
              truncToInt (fl64 (fl64 (600 / (currentFrame.rows : ℚ)) * (currentFrame.cols : ℚ)))
            rows := 600
            data := resizeBuf }
        unalteredFrame := { currentFrame with data := cloneBuf }
        currentFrameRows := currentFrame.rows
        currentFrameCols := currentFrame.cols } := by
  simp [normalizeFrame, h, resize, Mat.clone]

theorem normalizeFrame_of_small {currentFrame : Mat} (cloneBuf resizeBuf : Nat)
    (hc : currentFrame.cols ≤ 600) (hr : currentFrame.rows ≤ 600) :
    normalizeFrame currentFrame cloneBuf resizeBuf =
      { currentFrame := currentFrame
        unalteredFrame := currentFrame
        currentFrameRows := currentFrame.rows
        currentFrameCols := currentFrame.cols } := by
  have h1 : ¬ nonSquareOversized currentFrame.cols currentFrame.rows := by
    unfold nonSquareOversized; omega
  have h2 : ¬ squareOversized currentFrame.cols currentFrame.rows := by
    unfold squareOversized; omega
  simp [normalizeFrame, h1, h2]

/-- The recorded dimensions are those of the frame on entry, in each of the three branches. -/
theorem normalizeFrame_recorded (currentFrame : Mat) (cloneBuf resizeBuf : Nat) :
    (normalizeFrame currentFrame cloneBuf resizeBuf).currentFrameCols = currentFrame.cols ∧
    (normalizeFrame currentFrame cloneBuf resizeBuf).currentFrameRows = currentFrame.rows := by
  unfold normalizeFrame
  split_ifs <;> simp [Mat.clone]

/-- The `double` computed at line 145 is non-negative and within a relative error of
`2 / 2 ^ 53 + 1 / 2 ^ 106` of the exact quotient `600 * W / H`. -/
theorem resizeWidth_error {W H : Int} (hH : 1 ≤ H) (hW : 1 ≤ W) (hH2 : H < 2 ^ 31) :
    0 ≤ fl64 (fl64 (600 / (H : ℚ)) * (W : ℚ)) ∧
    |fl64 (fl64 (600 / (H : ℚ)) * (W : ℚ)) - 600 / (H : ℚ) * (W : ℚ)| ≤
      600 / (H : ℚ) * (W : ℚ) * (2 / 2 ^ 53 + 1 / 2 ^ 106) := by
  have hHq : (1 : ℚ) ≤ H := by exact_mod_cast hH
  have hWq : (1 : ℚ) ≤ W := by exact_mod_cast hW
  have hH2q : (H : ℚ) < 2 ^ 31 := by exact_mod_cast hH2
  have hHpos : (0 : ℚ) < H := by linarith
  set a : ℚ := 600 / (H : ℚ) with ha
  have ha_lo : (600 : ℚ) / 2 ^ 31 < a := by
    rw [ha]; exact div_lt_div_of_pos_left (by norm_num) hHpos hH2q
  have ha_pos : 0 < a := lt_trans (by norm_num) ha_lo
  have hs := abs_fl64_sub_le (x := a) (by linarith [show (1 : ℚ) / 2 ^ 32 ≤ 600 / 2 ^ 31 by norm_num])
  obtain ⟨hs1, hs2⟩ := abs_le.mp hs
  set s : ℚ := fl64 a with hsdef
  have hs_lo : a / 2 ≤ s := by nlinarith
  have ht_lo : (1 : ℚ) / 2 ^ 32 ≤ s * W := by
    have h1 : a / 2 ≤ s * W := by nlinarith
    have h2 : (1 : ℚ) / 2 ^ 32 ≤ 600 / 2 ^ 31 / 2 := by norm_num
    linarith
  have ht := abs_fl64_sub_le ht_lo
  obtain ⟨ht1, ht2⟩ := abs_le.mp ht
  have hst_pos : 0 ≤ s * W := le_trans (by positivity) ht_lo
  refine ⟨fl64_nonneg hst_pos, ?_⟩
  have hW0 : (0 : ℚ) ≤ W := by linarith
  have e1 : s * W - a * W ≤ a * W * (1 / 2 ^ 53) := by nlinarith
  have e2 : -(a * W * (1 / 2 ^ 53)) ≤ s * W - a * W := by nlinarith
  have e3 : s * W * (1 / 2 ^ 53) ≤ a * W * (1 / 2 ^ 53) + a * W * (1 / 2 ^ 106) := by
    have : s * W ≤ a * W + a * W * (1 / 2 ^ 53) := by linarith
    have h53 : (0 : ℚ) ≤ 1 / 2 ^ 53 := by positivity
    have := mul_le_mul_of_nonneg_right this h53
    have e : (a * W + a * W * (1 / 2 ^ 53)) * (1 / 2 ^ 53) =
        a * W * (1 / 2 ^ 53) + a * W * (1 / 2 ^ 106) := by ring
    linarith
  rw [abs_le]
  constructor <;> nlinarith


/-- The width line 145 computes for a frame of 1280 by 720: the quotient `600. / 720` rounds to
`7505999378950827 / 2 ^ 53`, the product by 1280 rounds to `4691249611844267 / 2 ^ 42`, about
1066.67, and the truncation is 1066. -/
theorem resizeWidth_1280_720 :
    truncToInt (fl64 (fl64 (600 / ((720 : Int) : ℚ)) * ((1280 : Int) : ℚ))) = 1066 := by
  have h1 : fl64 (600 / ((720 : Int) : ℚ)) =
      ((7505999378950827 : Int) : ℚ) * (2 : ℚ) ^ (-53 : Int) := by
    unfold fl64
    apply roundToFormat_eq_of_near <;> norm_num [abs_lt]
  have h2 : fl64 (((7505999378950827 : Int) : ℚ) * (2 : ℚ) ^ (-53 : Int) * ((1280 : Int) : ℚ)) =
      ((4691249611844267 : Int) : ℚ) * (2 : ℚ) ^ (-42 : Int) := by
    unfold fl64
    apply roundToFormat_eq_of_near <;> norm_num [abs_lt]
  rw [h1, h2]
  norm_num [truncToInt]
  decide

/-- The width line 145 computes for a frame of 1160 by 696: the quotient `600. / 696` rounds to
`7764826943742234 / 2 ^ 53`, the product by 1160 rounds to `8796093022207999 / 2 ^ 43`, just
below 1000, and the truncation is 999. -/
theorem resizeWidth_1160_696 :
    truncToInt (fl64 (fl64 (600 / ((696 : Int) : ℚ)) * ((1160 : Int) : ℚ))) = 999 := by
  have h1 : fl64 (600 / ((696 : Int) : ℚ)) =
      ((7764826943742234 : Int) : ℚ) * (2 : ℚ) ^ (-53 : Int) := by
    unfold fl64
    apply roundToFormat_eq_of_near <;> norm_num [abs_lt]
  have h2 : fl64 (((7764826943742234 : Int) : ℚ) * (2 : ℚ) ^ (-53 : Int) * ((1160 : Int) : ℚ)) =
      ((8796093022207999 : Int) : ℚ) * (2 : ℚ) ^ (-43 : Int) := by
    unfold fl64
    apply roundToFormat_eq_of_near <;> norm_num [abs_lt]
  rw [h1, h2]
  norm_num [truncToInt]
  decide

/-- The width line 145 computes for a frame of 640 by 480: `600. / 480` is 1.25 and the product by
640 is 800, both exact. -/
theorem resizeWidth_640_480 :
    truncToInt (fl64 (fl64 (600 / ((480 : Int) : ℚ)) * ((640 : Int) : ℚ))) = 800 := by
  have h1 : fl64 (600 / ((480 : Int) : ℚ)) =
      ((5629499534213120 : Int) : ℚ) * (2 : ℚ) ^ (-52 : Int) := by
    unfold fl64
    apply roundToFormat_eq_of_near <;> norm_num [abs_lt]
  have h2 : fl64 (((5629499534213120 : Int) : ℚ) * (2 : ℚ) ^ (-52 : Int) * ((640 : Int) : ℚ)) =
      ((7036874417766400 : Int) : ℚ) * (2 : ℚ) ^ (-43 : Int) := by
    unfold fl64
    apply roundToFormat_eq_of_near <;> norm_num [abs_lt]
  rw [h1, h2]
  norm_num [truncToInt]


/-- The width line 145 computes for a portrait frame of 580 by 696: the product rounds to
`8796093022207999 / 2 ^ 44`, just below 500, and the truncation is 499. -/
theorem resizeWidth_580_696 :
    truncToInt (fl64 (fl64 (600 / ((696 : Int) : ℚ)) * ((580 : Int) : ℚ))) = 499 := by
  have h1 : fl64 (600 / ((696 : Int) : ℚ)) =
      ((7764826943742234 : Int) : ℚ) * (2 : ℚ) ^ (-53 : Int) := by
    unfold fl64
    apply roundToFormat_eq_of_near <;> norm_num [abs_lt]
  have h2 : fl64 (((7764826943742234 : Int) : ℚ) * (2 : ℚ) ^ (-53 : Int) * ((580 : Int) : ℚ)) =
      ((8796093022207999 : Int) : ℚ) * (2 : ℚ) ^ (-44 : Int) := by
    unfold fl64
    apply roundToFormat_eq_of_near <;> norm_num [abs_lt]
  rw [h1, h2]
  norm_num [truncToInt]
  decide

/-- C4 (the code at the failing input). A landscape frame of 1280 by 720 is non-square with its
larger dimension above 600, and leaves the resize step 1066 wide and 600 high: its long edge is
1066, not 600, and its short edge is 600, not `600 * 720 / 1280 = 337`. -/
theorem normalizeFrame_landscape_long_edge :
    nonSquareOversized 1280 720 ∧
    (normalizeFrame { cols := 1280, rows := 720, data := 0 } 1 2).currentFrame =
      { cols := 1066, rows := 600, data := 2 } ∧
    ¬ (max (normalizeFrame { cols := 1280, rows := 720, data := 0 } 1 2).currentFrame.cols
          (normalizeFrame { cols := 1280, rows := 720, data := 0 } 1 2).currentFrame.rows = 600) ∧
    ¬ (min (normalizeFrame { cols := 1280, rows := 720, data := 0 } 1 2).currentFrame.cols
          (normalizeFrame { cols := 1280, rows := 720, data := 0 } 1 2).currentFrame.rows =
        600 * 720 / 1280) := by
  have hns : nonSquareOversized 1280 720 := by decide
  have hf : (normalizeFrame { cols := 1280, rows := 720, data := 0 } 1 2).currentFrame =
      { cols := 1066, rows := 600, data := 2 } := by
    rw [normalizeFrame_of_nonSquare 1 2 hns]
    simp only [resizeWidth_1280_720]
  refine ⟨hns, hf, ?_, ?_⟩ <;> rw [hf] <;> decide

/-- C8. A frame whose width and height are both at most 600 is not resized: the network-input frame
is the frame on entry, the retained original is the same header (hence the same buffer) as the
network-input frame, and the recorded dimensions are those of the frame on entry. -/
theorem normalizeFrame_small_unchanged (currentFrame : Mat) (cloneBuf resizeBuf : Nat)
    (hc : currentFrame.cols ≤ 600) (hr : currentFrame.rows ≤ 600) :
    (normalizeFrame currentFrame cloneBuf resizeBuf).currentFrame = currentFrame ∧
    (normalizeFrame currentFrame cloneBuf resizeBuf).currentFrame.cols = currentFrame.cols ∧
    (normalizeFrame currentFrame cloneBuf resizeBuf).currentFrame.rows = currentFrame.rows ∧
    (normalizeFrame currentFrame cloneBuf resizeBuf).unalteredFrame =
      (normalizeFrame currentFrame cloneBuf resizeBuf).currentFrame ∧
    (normalizeFrame currentFrame cloneBuf resizeBuf).unalteredFrame.data =
      (normalizeFrame currentFrame cloneBuf resizeBuf).currentFrame.data ∧
    (normalizeFrame currentFrame cloneBuf resizeBuf).currentFrameCols = currentFrame.cols ∧
    (normalizeFrame currentFrame cloneBuf resizeBuf).currentFrameRows = currentFrame.rows := by
  rw [normalizeFrame_of_small cloneBuf resizeBuf hc hr]
  exact ⟨rfl, rfl, rfl, rfl, rfl, rfl, rfl⟩

/-- Witness of `normalizeFrame_small_unchanged`: a frame of 600 by 480 held in buffer 7. -/
theorem normalizeFrame_small_unchanged_witness :
    ((600 : Int) ≤ 600 ∧ (480 : Int) ≤ 600) ∧
    (normalizeFrame { cols := 600, rows := 480, data := 7 } 8 9).currentFrame =
      { cols := 600, rows := 480, data := 7 } ∧
    (normalizeFrame { cols := 600, rows := 480, data := 7 } 8 9).unalteredFrame.data = 7 :=
  ⟨by decide,
   (normalizeFrame_small_unchanged { cols := 600, rows := 480, data := 7 } 8 9
      (by decide) (by decide)).1,
   by
     have h := normalizeFrame_small_unchanged { cols := 600, rows := 480, data := 7 } 8 9
       (by decide) (by decide)
     rw [h.2.2.2.2.1, h.1]⟩

/-- C9 (counterexample). A frame of 1160 by 696 has `W > H ≥ 1` and `W > 600`; the resize step
leaves it 999 wide and 600 high, and `|999 - 600 * 1160 / 696|` is exactly 1, not below 1. -/
theorem normalizeFrame_aspect_off_by_one :
    ((1160 : Int) > 696 ∧ (696 : Int) ≥ 1 ∧ (1160 : Int) > 600) ∧
    (normalizeFrame { cols := 1160, rows := 696, data := 0 } 1 2).currentFrame =
      { cols := 999, rows := 600, data := 2 } ∧
    ¬ (|((normalizeFrame { cols := 1160, rows := 696, data := 0 } 1 2).currentFrame.cols : ℚ) -
        ((normalizeFrame { cols := 1160, rows := 696, data := 0 } 1 2).currentFrame.rows : ℚ) *
          ((1160 : Int) : ℚ) / ((696 : Int) : ℚ)| < 1) := by
  have hf : (normalizeFrame { cols := 1160, rows := 696, data := 0 } 1 2).currentFrame =
      { cols := 999, rows := 600, data := 2 } := by
    rw [normalizeFrame_of_nonSquare 1 2 (by decide)]
    simp only [resizeWidth_1160_696]
  refine ⟨by decide, hf, ?_⟩
  rw [hf]
  norm_num

/-- C9 (as amended). For a frame of width `W` and height `H` with `W > H ≥ 1` and `W > 600`, `W`
being an `int` and the new width fitting an `int`, the dimensions `(W', H')` of the network-input
frame satisfy `|W' - H' * W / H| ≤ 1` over the rationals. -/
theorem normalizeFrame_aspect (currentFrame : Mat) (cloneBuf resizeBuf : Nat)
    (hWH : currentFrame.cols > currentFrame.rows) (hH : currentFrame.rows ≥ 1)
    (hW : currentFrame.cols > 600) (hint : fitsInt currentFrame.cols)
    (_hfit : fitsInt (normalizeFrame currentFrame cloneBuf resizeBuf).currentFrame.cols) :
    |((normalizeFrame currentFrame cloneBuf resizeBuf).currentFrame.cols : ℚ) -
      ((normalizeFrame currentFrame cloneBuf resizeBuf).currentFrame.rows : ℚ) *
        (currentFrame.cols : ℚ) / (currentFrame.rows : ℚ)| ≤ 1 := by
  have hns : nonSquareOversized currentFrame.cols currentFrame.rows := Or.inl ⟨hW, hWH⟩
  rw [normalizeFrame_of_nonSquare cloneBuf resizeBuf hns]
  obtain ⟨W, H, d⟩ := currentFrame
  simp only at hWH hH hW hint ⊢
  have hint : W < 2 ^ 31 := by
    have := hint.2
    omega
  obtain ⟨hp0, hperr⟩ := resizeWidth_error (W := W) (H := H) hH (by omega) (by omega)
  set p : ℚ := fl64 (fl64 (600 / (H : ℚ)) * (W : ℚ)) with hp
  have hHq : (1 : ℚ) ≤ H := by exact_mod_cast hH
  have hHpos : (0 : ℚ) < H := by linarith
  have hWq : (W : ℚ) < 2 ^ 31 := by exact_mod_cast hint
  have hW0 : (0 : ℚ) < W := by
    have : (0 : Int) < W := by omega
    exact_mod_cast this
  set X : ℚ := 600 / (H : ℚ) * (W : ℚ) with hX
  have hXH : X * H = 600 * W := by rw [hX]; field_simp
  have hX0 : 0 ≤ X := by rw [hX]; positivity
  have hHδ : (H : ℚ) * (X * (2 / 2 ^ 53 + 1 / 2 ^ 106)) < 1 := by
    have : (H : ℚ) * (X * (2 / 2 ^ 53 + 1 / 2 ^ 106)) = 600 * W * (2 / 2 ^ 53 + 1 / 2 ^ 106) := by
      rw [← hXH]; ring
    rw [this]
    have hc : (0 : ℚ) < 2 / 2 ^ 53 + 1 / 2 ^ 106 := by positivity
    have : 600 * (W : ℚ) * (2 / 2 ^ 53 + 1 / 2 ^ 106) <
        600 * 2 ^ 31 * (2 / 2 ^ 53 + 1 / 2 ^ 106) := by
      apply mul_lt_mul_of_pos_right _ hc
      linarith
    have : (600 : ℚ) * 2 ^ 31 * (2 / 2 ^ 53 + 1 / 2 ^ 106) < 1 := by norm_num
    linarith
  have hδ0 : 0 ≤ X * (2 / 2 ^ 53 + 1 / 2 ^ 106) := by positivity
  have hδ1 : X * (2 / 2 ^ 53 + 1 / 2 ^ 106) < 1 := by nlinarith
  obtain ⟨he1, he2⟩ := abs_le.mp hperr
  have ht1 := truncToInt_le hp0
  have ht2 := lt_truncToInt_add_one hp0
  have hgoal : ((600 : Int) : ℚ) * (W : ℚ) / (H : ℚ) = X := by
    rw [hX]; push_cast; ring
  rw [hgoal, abs_le]
  constructor
  · by_contra hcon
    have hlt : (truncToInt p : ℚ) - X < -1 := not_le.mp hcon
    have hint1 : ((truncToInt p * H + H : Int) : ℚ) < ((600 * W : Int) : ℚ) := by
      push_cast
      rw [← hXH]
      nlinarith
    have hint2 : truncToInt p * H + H < 600 * W := by exact_mod_cast hint1
    have hint3 : truncToInt p * H + H + 1 ≤ 600 * W := by omega
    have hint4 : ((truncToInt p * H + H + 1 : Int) : ℚ) ≤ ((600 * W : Int) : ℚ) := by
      exact_mod_cast hint3
    push_cast at hint4
    rw [← hXH] at hint4
    have h5 : (H : ℚ) * (X - (truncToInt p : ℚ) - 1) ≥ 1 := by nlinarith
    have h6 : X - (truncToInt p : ℚ) - 1 < X * (2 / 2 ^ 53 + 1 / 2 ^ 106) := by linarith
    have h7 : (H : ℚ) * (X - (truncToInt p : ℚ) - 1) <
        (H : ℚ) * (X * (2 / 2 ^ 53 + 1 / 2 ^ 106)) := mul_lt_mul_of_pos_left h6 hHpos
    linarith
  · linarith

/-- Witness of `normalizeFrame_aspect`: the frame of 1160 by 696, where the bound 1 is attained. -/
theorem normalizeFrame_aspect_witness :
    ((1160 : Int) > 696 ∧ (696 : Int) ≥ 1 ∧ (1160 : Int) > 600 ∧ fitsInt 1160 ∧ fitsInt 999) ∧
    |((normalizeFrame { cols := 1160, rows := 696, data := 0 } 1 2).currentFrame.cols : ℚ) -
      ((normalizeFrame { cols := 1160, rows := 696, data := 0 } 1 2).currentFrame.rows : ℚ) *
        ((1160 : Int) : ℚ) / ((696 : Int) : ℚ)| ≤ 1 :=
  ⟨by decide,
   normalizeFrame_aspect { cols := 1160, rows := 696, data := 0 } 1 2
     (by decide) (by decide) (by decide) (by decide)
     (by
       rw [normalizeFrame_of_nonSquare 1 2 (by decide)]
       simp only [resizeWidth_1160_696]
       decide)⟩

/-- C10 (counterexample). No frame with positive width and height in which a dimension exceeds 600
fails both resize conditions. -/
theorem no_oversized_frame_skips_resize :
    ¬ ∃ cols rows : Int, 0 < cols ∧ 0 < rows ∧ (cols > 600 ∨ rows > 600) ∧
      ¬ nonSquareOversized cols rows ∧ ¬ squareOversized cols rows := by
  rintro ⟨cols, rows, -, -, hbig, h1, h2⟩
  unfold nonSquareOversized at h1
  unfold squareOversized at h2
  omega

/-- C10 (as amended). A frame fails both resize conditions, and so takes the no-resize branch,
exactly when its width and height are both at most 600; a frame with a dimension above 600 is
resized, to height 600. -/
theorem noResize_iff_small (currentFrame : Mat) (cloneBuf resizeBuf : Nat) :
    ((¬ nonSquareOversized currentFrame.cols currentFrame.rows ∧
        ¬ squareOversized currentFrame.cols currentFrame.rows) ↔
      (currentFrame.cols ≤ 600 ∧ currentFrame.rows ≤ 600)) ∧
    ((currentFrame.cols > 600 ∨ currentFrame.rows > 600) →
      (normalizeFrame currentFrame cloneBuf resizeBuf).currentFrame.rows = 600 ∧
      (normalizeFrame currentFrame cloneBuf resizeBuf).currentFrame.data = resizeBuf ∧
      (normalizeFrame currentFrame cloneBuf resizeBuf).unalteredFrame.data = cloneBuf) := by
  constructor
  · unfold nonSquareOversized squareOversized
    omega
  · intro hbig
    unfold normalizeFrame
    by_cases h1 : nonSquareOversized currentFrame.cols currentFrame.rows
    · simp [h1, resize, Mat.clone]
    · have h2 : squareOversized currentFrame.cols currentFrame.rows := by
        unfold nonSquareOversized at h1
        unfold squareOversized
        omega
      simp [h1, h2, resize, Mat.clone]


/-! ## The decoding loop -/

/-- The vectors after the loop when every retained row names a class of `m_classes`. -/
theorem decodeLoop_done (m_classes : List String) (m_confidenceTreshold : ℚ)
    (currentFrameCols currentFrameRows : Int) (rows : List Row) (acc : Decoded)
    (hvalid : ∀ r ∈ rows, m_confidenceTreshold ≤ r.c2 →
      classAt m_classes (classIndex r) ≠ none) :
    decodeLoop m_classes m_confidenceTreshold currentFrameCols currentFrameRows rows acc =
      Outcome.done
        { boxes := acc.boxes ++
            (rows.filter (fun r => decide (m_confidenceTreshold ≤ r.c2))).map
              (rowBox currentFrameCols currentFrameRows)
          confidences := acc.confidences ++
            (rows.filter (fun r => decide (m_confidenceTreshold ≤ r.c2))).map (fun r => r.c2)
          labels := acc.labels ++
            (rows.filter (fun r => decide (m_confidenceTreshold ≤ r.c2))).map
              (fun r => rowLabel ((classAt m_classes (classIndex r)).getD "") r.c2) } := by
  induction rows generalizing acc with
  | nil => simp [decodeLoop]
  | cons r rest ih =>
    have hrest : ∀ r ∈ rest, m_confidenceTreshold ≤ r.c2 →
        classAt m_classes (classIndex r) ≠ none :=
      fun x hx => hvalid x (List.mem_cons_of_mem _ hx)
    unfold decodeLoop
    by_cases hlt : r.c2 < m_confidenceTreshold
    · have hnle : ¬ m_confidenceTreshold ≤ r.c2 := not_le.mpr hlt
      simp only [hlt, if_true, List.filter_cons, hnle, decide_False]
      exact ih acc hrest
    · have hle : m_confidenceTreshold ≤ r.c2 := not_lt.mp hlt
      obtain ⟨name, hname⟩ := Option.ne_none_iff_exists'.mp (hvalid r (List.mem_cons_self _ _) hle)
      simp only [hlt, if_false, hname, List.filter_cons, hle, decide_True, if_true]
      rw [ih _ hrest]
      simp [hname]

/-- The loop runs into undefined behaviour exactly when some retained row has a class index
outside `m_classes`. -/
theorem decodeLoop_undefined_iff (m_classes : List String) (m_confidenceTreshold : ℚ)
    (currentFrameCols currentFrameRows : Int) (rows : List Row) (acc : Decoded) :
    decodeLoop m_classes m_confidenceTreshold currentFrameCols currentFrameRows rows acc =
        Outcome.undefinedBehaviour ↔
      ∃ r ∈ rows, m_confidenceTreshold ≤ r.c2 ∧ classAt m_classes (classIndex r) = none := by
  induction rows generalizing acc with
  | nil => simp [decodeLoop]
  | cons r rest ih =>
    unfold decodeLoop
    by_cases hlt : r.c2 < m_confidenceTreshold
    · have hnle : ¬ m_confidenceTreshold ≤ r.c2 := not_le.mpr hlt
      simp only [hlt, if_true, List.exists_mem_cons_iff, hnle, false_and, false_or]
      exact ih acc
    · have hle : m_confidenceTreshold ≤ r.c2 := not_lt.mp hlt
      simp only [hlt, if_false, List.exists_mem_cons_iff, hle, true_and]
      cases hc : classAt m_classes (classIndex r) with
      | none => simp
      | some name => simp [ih]


/-! ## The suppression step -/

theorem mem_insertByConfidence {c x : Candidate} {l : List Candidate} :
    x ∈ insertByConfidence c l ↔ x = c ∨ x ∈ l := by
  induction l with
  | nil => simp [insertByConfidence]
  | cons d ds ih =>
    unfold insertByConfidence
    split_ifs
    · simp
    · simp only [List.mem_cons, ih]
      tauto

theorem mem_foldl_insertByConfidence {x : Candidate} (cs sorted : List Candidate) :
    x ∈ cs.foldl (fun sorted c => insertByConfidence c sorted) sorted ↔ x ∈ cs ∨ x ∈ sorted := by
  induction cs generalizing sorted with
  | nil => simp
  | cons c cs ih =>
    simp only [List.foldl_cons, ih, mem_insertByConfidence, List.mem_cons]
    tauto

theorem mem_sortByConfidence {x : Candidate} {cs : List Candidate} :
    x ∈ sortByConfidence cs ↔ x ∈ cs := by
  simp [sortByConfidence, mem_foldl_insertByConfidence]

theorem mem_of_mem_greedySuppress (nmsThreshold : ℚ) :
    ∀ (n : Nat) (cs : List Candidate), cs.length ≤ n →
      ∀ x ∈ greedySuppress nmsThreshold cs, x ∈ cs := by
  intro n
  induction n with
  | zero =>
    intro cs hlen x hx
    have : cs = [] := List.length_eq_zero.mp (Nat.le_zero.mp hlen)
    subst this
    simp [greedySuppress] at hx
  | succ n ih =>
    intro cs hlen x hx
    cases cs with
    | nil => simp [greedySuppress] at hx
    | cons c rest =>
      rw [greedySuppress] at hx
      rcases List.mem_cons.mp hx with h | h
      · exact h ▸ List.mem_cons_self _ _
      · have hle : (rest.filter (fun d => decide (¬ nmsThreshold ≤ iou c.box d.box))).length ≤ n :=
          le_trans (List.length_filter_le _ _) (Nat.le_of_succ_le_succ hlen)
        exact List.mem_cons_of_mem _ (List.mem_of_mem_filter (ih _ hle x h))

theorem index_lt_of_mem_candidates {boxes : List Rect} {confidences : List ℚ} {c : Candidate}
    (h : c ∈ candidates boxes confidences) : c.index < boxes.length := by
  unfold candidates at h
  obtain ⟨t, ht, rfl⟩ := List.mem_map.mp h
  have := (List.of_mem_zip ht).1
  simpa using this

/-- Every accepted position is a position of `boxes`. -/
theorem NMSBoxes_index_lt {boxes : List Rect} {confidences : List ℚ}
    {confidenceThreshold nmsThreshold : ℚ} {i : Nat}
    (h : i ∈ NMSBoxes boxes confidences confidenceThreshold nmsThreshold) : i < boxes.length := by
  unfold NMSBoxes at h
  obtain ⟨c, hc, rfl⟩ := List.mem_map.mp h
  have h1 := mem_of_mem_greedySuppress nmsThreshold _ _ (le_refl _) c hc
  have h2 := List.mem_of_mem_filter (mem_sortByConfidence.mp h1)
  exact index_lt_of_mem_candidates h2

/-- The scale factor is the raw ratio clamped to the interval from 1 to 3. -/
theorem scaleFactor_eq_clamp (boxHeight labelHeight : Int) :
    scaleFactor boxHeight labelHeight =
      max 1 (min 3 (((boxHeight : ℚ) * (1 / 10)) / (labelHeight : ℚ))) := by
  unfold scaleFactor
  simp only
  split_ifs with h1 h2
  · rw [max_eq_left]; exact le_trans (min_le_right _ _) h1.le
  · rw [min_eq_left h2.le, max_eq_right]; norm_num
  · rw [min_eq_right (not_lt.mp h2), max_eq_right (not_lt.mp h1)]

/-- When every accepted position is a position of `boxes` and of `labels`, `drawBoxes` completes and
has made the drawing calls of each accepted position. -/
theorem drawBoxes_done (getTextSize : String → Size × Int) (boxes : List Rect)
    (labels : List String) (indices : List Nat)
    (hvalid : ∀ i ∈ indices, i < boxes.length ∧ i < labels.length) :
    ∃ ops, drawBoxes getTextSize boxes labels indices = Outcome.done ops ∧
      ∀ i ∈ indices, ∀ box label, boxes.get? i = some box → labels.get? i = some label →
        ∀ op ∈ drawBox getTextSize box label, op ∈ ops := by
  induction indices with
  | nil => exact ⟨[], rfl, by simp⟩
  | cons index rest ih =>
    obtain ⟨ops, hops, hall⟩ := ih (fun i hi => hvalid i (List.mem_cons_of_mem _ hi))
    obtain ⟨hb, hl⟩ := hvalid index (List.mem_cons_self _ _)
    obtain ⟨box, hbox⟩ : ∃ box, boxes.get? index = some box :=
      ⟨boxes.get ⟨index, hb⟩, List.get?_eq_get hb⟩
    obtain ⟨label, hlabel⟩ : ∃ label, labels.get? index = some label :=
      ⟨labels.get ⟨index, hl⟩, List.get?_eq_get hl⟩
    refine ⟨drawBox getTextSize box label ++ ops, ?_, ?_⟩
    · simp only [drawBoxes, hbox, hlabel, hops]
    · intro i hi box' label' hbox' hlabel' op hop
      rcases List.mem_cons.mp hi with h | h
      · subst h
        rw [hbox] at hbox'; rw [hlabel] at hlabel'
        cases hbox'; cases hlabel'
        exact List.mem_append_left _ hop
      · exact List.mem_append_right _ (hall i h box' label' hbox' hlabel' op hop)

/-! ## The whole method -/

/-- The method completes when every retained row of the grid names a class of `m_classes`, and
leaves the variables described here. -/
theorem analyzeFrame_done (m_classes : List String) (m_confidenceTreshold m_nmsThreshold : ℚ)
    (forward : Mat → List Row) (getTextSize : String → Size × Int)
    (statics : FpsState) (currentTime : Int) (currentFrame : Mat) (cloneBuf resizeBuf : Nat)
    (hvalid : ∀ r ∈ forward (normalizeFrame currentFrame cloneBuf resizeBuf).currentFrame,
      m_confidenceTreshold ≤ r.c2 → classAt m_classes (classIndex r) ≠ none) :
    ∃ res, analyzeFrame m_classes m_confidenceTreshold m_nmsThreshold forward getTextSize
        statics currentTime currentFrame cloneBuf resizeBuf = Outcome.done res ∧
      res.normalized = normalizeFrame currentFrame cloneBuf resizeBuf ∧
      res.decoded.boxes =
        ((forward (normalizeFrame currentFrame cloneBuf resizeBuf).currentFrame).filter
          (fun r => decide (m_confidenceTreshold ≤ r.c2))).map
          (rowBox currentFrame.cols currentFrame.rows) ∧
      res.decoded.confidences =
        ((forward (normalizeFrame currentFrame cloneBuf resizeBuf).currentFrame).filter
          (fun r => decide (m_confidenceTreshold ≤ r.c2))).map (fun r => r.c2) ∧
      res.indices =
        NMSBoxes res.decoded.boxes res.decoded.confidences m_confidenceTreshold m_nmsThreshold ∧
      res.statics = updateFps statics currentTime ∧
      res.currentFrame = (normalizeFrame currentFrame cloneBuf resizeBuf).unalteredFrame := by
  have hd := decodeLoop_done m_classes m_confidenceTreshold
    (normalizeFrame currentFrame cloneBuf resizeBuf).currentFrameCols
    (normalizeFrame currentFrame cloneBuf resizeBuf).currentFrameRows
    (forward (normalizeFrame currentFrame cloneBuf resizeBuf).currentFrame)
    { boxes := [], confidences := [], labels := [] } hvalid
  rw [(normalizeFrame_recorded currentFrame cloneBuf resizeBuf).1,
    (normalizeFrame_recorded currentFrame cloneBuf resizeBuf).2] at hd
  simp only [List.nil_append] at hd
  obtain ⟨ops, hops, -⟩ := drawBoxes_done getTextSize
    (((forward (normalizeFrame currentFrame cloneBuf resizeBuf).currentFrame).filter
      (fun r => decide (m_confidenceTreshold ≤ r.c2))).map
      (rowBox currentFrame.cols currentFrame.rows))
    (((forward (normalizeFrame currentFrame cloneBuf resizeBuf).currentFrame).filter
      (fun r => decide (m_confidenceTreshold ≤ r.c2))).map
      (fun r => rowLabel ((classAt m_classes (classIndex r)).getD "") r.c2))
    (NMSBoxes
      (((forward (normalizeFrame currentFrame cloneBuf resizeBuf).currentFrame).filter
        (fun r => decide (m_confidenceTreshold ≤ r.c2))).map
        (rowBox currentFrame.cols currentFrame.rows))
      (((forward (normalizeFrame currentFrame cloneBuf resizeBuf).currentFrame).filter
        (fun r => decide (m_confidenceTreshold ≤ r.c2))).map (fun r => r.c2))
      m_confidenceTreshold m_nmsThreshold)
    (by
      intro i hi
      have := NMSBoxes_index_lt hi
      simp only [List.length_map] at this ⊢
      exact ⟨this, this⟩)
  unfold analyzeFrame
  simp only [(normalizeFrame_recorded currentFrame cloneBuf resizeBuf).1,
    (normalizeFrame_recorded currentFrame cloneBuf resizeBuf).2, hd, hops]
  exact ⟨_, rfl, rfl, rfl, rfl, rfl, rfl, rfl⟩



/-! ## Coordinates of the example rows, in binary32 -/

theorem rowCoordinate_tenth_640 :
    truncToInt (fl32 (fl32 (1 / 10) * fl32 ((640 : Int) : ℚ))) = 64 := by
  have hx : fl32 (1 / 10) = (((13421773 : Int) : ℚ) * (2 : ℚ) ^ (-27 : Int)) := by
    unfold fl32
    apply roundToFormat_eq_of_near <;> norm_num [abs_lt]
  have hd : fl32 ((640 : Int) : ℚ) = (((10485760 : Int) : ℚ) * (2 : ℚ) ^ (-14 : Int)) := by
    unfold fl32
    apply roundToFormat_eq_of_near <;> norm_num [abs_lt]
  have hp : fl32 ((((13421773 : Int) : ℚ) * (2 : ℚ) ^ (-27 : Int)) * (((10485760 : Int) : ℚ) * (2 : ℚ) ^ (-14 : Int))) =
      (((8388608 : Int) : ℚ) * (2 : ℚ) ^ (-17 : Int)) := by
    unfold fl32
    apply roundToFormat_eq_of_near <;> norm_num [abs_lt]
  rw [hx, hd, hp]
  norm_num [truncToInt]

theorem rowCoordinate_fifth_480 :
    truncToInt (fl32 (fl32 (2 / 10) * fl32 ((480 : Int) : ℚ))) = 96 := by
  have hx : fl32 (2 / 10) = (((13421773 : Int) : ℚ) * (2 : ℚ) ^ (-26 : Int)) := by
    unfold fl32
    apply roundToFormat_eq_of_near <;> norm_num [abs_lt]
  have hd : fl32 ((480 : Int) : ℚ) = (((15728640 : Int) : ℚ) * (2 : ℚ) ^ (-15 : Int)) := by
    unfold fl32
    apply roundToFormat_eq_of_near <;> norm_num [abs_lt]
  have hp : fl32 ((((13421773 : Int) : ℚ) * (2 : ℚ) ^ (-26 : Int)) * (((15728640 : Int) : ℚ) * (2 : ℚ) ^ (-15 : Int))) =
      (((12582912 : Int) : ℚ) * (2 : ℚ) ^ (-17 : Int)) := by
    unfold fl32
    apply roundToFormat_eq_of_near <;> norm_num [abs_lt]
  rw [hx, hd, hp]
  norm_num [truncToInt]

theorem rowCoordinate_half_640 :
    truncToInt (fl32 (fl32 (5 / 10) * fl32 ((640 : Int) : ℚ))) = 320 := by
  have hx : fl32 (5 / 10) = (((8388608 : Int) : ℚ) * (2 : ℚ) ^ (-24 : Int)) := by
    unfold fl32
    apply roundToFormat_eq_of_near <;> norm_num [abs_lt]
  have hd : fl32 ((640 : Int) : ℚ) = (((10485760 : Int) : ℚ) * (2 : ℚ) ^ (-14 : Int)) := by
    unfold fl32
    apply roundToFormat_eq_of_near <;> norm_num [abs_lt]
  have hp : fl32 ((((8388608 : Int) : ℚ) * (2 : ℚ) ^ (-24 : Int)) * (((10485760 : Int) : ℚ) * (2 : ℚ) ^ (-14 : Int))) =
      (((10485760 : Int) : ℚ) * (2 : ℚ) ^ (-15 : Int)) := by
    unfold fl32
    apply roundToFormat_eq_of_near <;> norm_num [abs_lt]
  rw [hx, hd, hp]
  norm_num [truncToInt]

theorem rowCoordinate_threeFifths_480 :
    truncToInt (fl32 (fl32 (6 / 10) * fl32 ((480 : Int) : ℚ))) = 288 := by
  have hx : fl32 (6 / 10) = (((10066330 : Int) : ℚ) * (2 : ℚ) ^ (-24 : Int)) := by
    unfold fl32
    apply roundToFormat_eq_of_near <;> norm_num [abs_lt]
  have hd : fl32 ((480 : Int) : ℚ) = (((15728640 : Int) : ℚ) * (2 : ℚ) ^ (-15 : Int)) := by
    unfold fl32
    apply roundToFormat_eq_of_near <;> norm_num [abs_lt]
  have hp : fl32 ((((10066330 : Int) : ℚ) * (2 : ℚ) ^ (-24 : Int)) * (((15728640 : Int) : ℚ) * (2 : ℚ) ^ (-15 : Int))) =
      (((9437184 : Int) : ℚ) * (2 : ℚ) ^ (-15 : Int)) := by
    unfold fl32
    apply roundToFormat_eq_of_near <;> norm_num [abs_lt]
  rw [hx, hd, hp]
  norm_num [truncToInt]

theorem rowCoordinate_sevenTenths_640 :
    truncToInt (fl32 (fl32 (7 / 10) * fl32 ((640 : Int) : ℚ))) = 448 := by
  have hx : fl32 (7 / 10) = (((11744051 : Int) : ℚ) * (2 : ℚ) ^ (-24 : Int)) := by
    unfold fl32
    apply roundToFormat_eq_of_near <;> norm_num [abs_lt]
  have hd : fl32 ((640 : Int) : ℚ) = (((10485760 : Int) : ℚ) * (2 : ℚ) ^ (-14 : Int)) := by
    unfold fl32
    apply roundToFormat_eq_of_near <;> norm_num [abs_lt]
  have hp : fl32 ((((11744051 : Int) : ℚ) * (2 : ℚ) ^ (-24 : Int)) * (((10485760 : Int) : ℚ) * (2 : ℚ) ^ (-14 : Int))) =
      (((14680064 : Int) : ℚ) * (2 : ℚ) ^ (-15 : Int)) := by
    unfold fl32
    apply roundToFormat_eq_of_near <;> norm_num [abs_lt]
  rw [hx, hd, hp]
  norm_num [truncToInt]


/-! ## The claims on decoding -/

/-- C1. Each row the decoding loop of `analyzeFrame` keeps contributes, in row order, the box with
`left = col3 * W`, `top = col4 * H`, `width = right - left` and `height = bottom - top`, where
`right = col5 * W`, `bottom = col6 * H`, every product being the `float` product of the code,
truncated toward zero, nothing clamped, and `W`, `H` the width and height of the frame on entry,
before any resize. The row `(0.1f, 0.2f, 0.5f, 0.6f)` on a 640 by 480 frame gives left 64, top 96,
right 320, bottom 288, width 256 and height 192. (The rows taken are those on which the code is
defined: the class index is a position of `m_classes` and the conversions and subtractions stay
in the range of `int`.) -/
theorem analyzeFrame_boxes (m_classes : List String) (m_confidenceTreshold m_nmsThreshold : ℚ)
    (forward : Mat → List Row) (getTextSize : String → Size × Int)
    (statics : FpsState) (currentTime : Int) (currentFrame : Mat) (cloneBuf resizeBuf : Nat)
    (hvalid : ∀ r ∈ forward (normalizeFrame currentFrame cloneBuf resizeBuf).currentFrame,
      m_confidenceTreshold ≤ r.c2 → classAt m_classes (classIndex r) ≠ none)
    (_hrange : ∀ r ∈ forward (normalizeFrame currentFrame cloneBuf resizeBuf).currentFrame,
      m_confidenceTreshold ≤ r.c2 → boxDefined currentFrame.cols currentFrame.rows r) :
    (∃ res, analyzeFrame m_classes m_confidenceTreshold m_nmsThreshold forward getTextSize
        statics currentTime currentFrame cloneBuf resizeBuf = Outcome.done res ∧
      res.decoded.boxes =
        ((forward (normalizeFrame currentFrame cloneBuf resizeBuf).currentFrame).filter
          (fun r => decide (m_confidenceTreshold ≤ r.c2))).map
          (fun r =>
            { x := truncToInt (fl32 (r.c3 * fl32 (currentFrame.cols : ℚ)))
              y := truncToInt (fl32 (r.c4 * fl32 (currentFrame.rows : ℚ)))
              width := truncToInt (fl32 (r.c5 * fl32 (currentFrame.cols : ℚ))) -
                truncToInt (fl32 (r.c3 * fl32 (currentFrame.cols : ℚ)))
              height := truncToInt (fl32 (r.c6 * fl32 (currentFrame.rows : ℚ))) -
                truncToInt (fl32 (r.c4 * fl32 (currentFrame.rows : ℚ))) })) ∧
    (∀ c0 c1 c2 : ℚ,
      rowBox 640 480
          { c0 := c0, c1 := c1, c2 := c2, c3 := fl32 (1 / 10), c4 := fl32 (2 / 10),
            c5 := fl32 (5 / 10), c6 := fl32 (6 / 10) } =
        { x := 64, y := 96, width := 256, height := 192 }) ∧
    truncToInt (fl32 (fl32 (5 / 10) * fl32 ((640 : Int) : ℚ))) = 320 ∧
    truncToInt (fl32 (fl32 (6 / 10) * fl32 ((480 : Int) : ℚ))) = 288 := by
  obtain ⟨res, hres, -, hboxes, -⟩ := analyzeFrame_done m_classes m_confidenceTreshold
    m_nmsThreshold forward getTextSize statics currentTime currentFrame cloneBuf resizeBuf hvalid
  refine ⟨⟨res, hres, ?_⟩, ?_, rowCoordinate_half_640, rowCoordinate_threeFifths_480⟩
  · rw [hboxes]; rfl
  · intro c0 c1 c2
    simp only [rowBox, rowCoordinate_tenth_640, rowCoordinate_fifth_480, rowCoordinate_half_640,
      rowCoordinate_threeFifths_480]
    decide

/-- Witness of `analyzeFrame_boxes`: a 640 by 480 frame, which the resize step turns into an 800 by
600 network input, with the detection rows `(0.1f, 0.2f, 0.5f, 0.6f)` and
`(0.7f, 0.2f, 0.7f, 0.6f)`; the product `0.7f * 640` is 448 in `float`. -/
theorem analyzeFrame_boxes_witness :
    (normalizeFrame { cols := 640, rows := 480, data := 0 } 1 2).currentFrame =
      { cols := 800, rows := 600, data := 2 } ∧
    ∃ res, analyzeFrame ["person"] (1 / 2) (1 / 2)
        (fun _ =>
          [{ c0 := 0, c1 := 0, c2 := 9 / 10, c3 := fl32 (1 / 10), c4 := fl32 (2 / 10),
             c5 := fl32 (5 / 10), c6 := fl32 (6 / 10) },
           { c0 := 0, c1 := 0, c2 := 8 / 10, c3 := fl32 (7 / 10), c4 := fl32 (2 / 10),
             c5 := fl32 (7 / 10), c6 := fl32 (6 / 10) }])
        (fun _ => ({ width := 100, height := 22 }, 10))
        (FpsState.initial 0) 0 { cols := 640, rows := 480, data := 0 } 1 2 = Outcome.done res ∧
      res.decoded.boxes =
        [{ x := 64, y := 96, width := 256, height := 192 },
         { x := 448, y := 96, width := 0, height := 192 }] := by
  refine ⟨?_, ?_⟩
  · rw [normalizeFrame_of_nonSquare 1 2 (by decide)]
    simp only [resizeWidth_640_480]
  · obtain ⟨⟨res, hres, hboxes⟩, -⟩ := analyzeFrame_boxes ["person"] (1 / 2) (1 / 2)
      (fun _ =>
        [{ c0 := 0, c1 := 0, c2 := 9 / 10, c3 := fl32 (1 / 10), c4 := fl32 (2 / 10),
           c5 := fl32 (5 / 10), c6 := fl32 (6 / 10) },
         { c0 := 0, c1 := 0, c2 := 8 / 10, c3 := fl32 (7 / 10), c4 := fl32 (2 / 10),
           c5 := fl32 (7 / 10), c6 := fl32 (6 / 10) }])
      (fun _ => ({ width := 100, height := 22 }, 10))
      (FpsState.initial 0) 0 { cols := 640, rows := 480, data := 0 } 1 2
      (by
        intro r hr _
        simp only [List.mem_cons, List.mem_singleton, List.not_mem_nil, or_false] at hr
        rcases hr with h | h <;> subst h <;> simp [classAt, classIndex, truncToInt])
      (by
        intro r hr _
        simp only [List.mem_cons, List.mem_singleton, List.not_mem_nil, or_false] at hr
        rcases hr with h | h <;> subst h <;>
          simp only [boxDefined, rowCoordinate_tenth_640, rowCoordinate_fifth_480,
            rowCoordinate_half_640, rowCoordinate_threeFifths_480,
            rowCoordinate_sevenTenths_640] <;>
          decide)
    refine ⟨res, hres, ?_⟩
    rw [hboxes]
    have h1 : (1 : ℚ) / 2 ≤ 9 / 10 := by norm_num
    have h2 : (1 : ℚ) / 2 ≤ 8 / 10 := by norm_num
    simp only [List.filter_cons, List.filter_nil, h1, h2, decide_True, if_true, List.map_cons,
      List.map_nil, rowCoordinate_tenth_640, rowCoordinate_fifth_480, rowCoordinate_half_640,
      rowCoordinate_threeFifths_480, rowCoordinate_sevenTenths_640]
    decide

/-- C2. From empty vectors the decoding loop keeps exactly the rows whose confidence (column 2) is
greater than or equal to the threshold, a row at exactly the threshold included, and drops the
rows below it; `boxes`, `confidences` and `labels` get one entry per kept row, in row order, so
the three have the same length. (Every kept row is taken to name a class of `m_classes`.) -/
theorem decodeLoop_retains (m_classes : List String) (m_confidenceTreshold : ℚ)
    (currentFrameCols currentFrameRows : Int) (rows : List Row)
    (hvalid : ∀ r ∈ rows, m_confidenceTreshold ≤ r.c2 →
      classAt m_classes (classIndex r) ≠ none) :
    ∃ d, decodeLoop m_classes m_confidenceTreshold currentFrameCols currentFrameRows rows
        { boxes := [], confidences := [], labels := [] } = Outcome.done d ∧
      d.confidences =
        (rows.filter (fun r => decide (m_confidenceTreshold ≤ r.c2))).map (fun r => r.c2) ∧
      d.boxes =
        (rows.filter (fun r => decide (m_confidenceTreshold ≤ r.c2))).map
          (rowBox currentFrameCols currentFrameRows) ∧
      d.labels =
        (rows.filter (fun r => decide (m_confidenceTreshold ≤ r.c2))).map
          (fun r => rowLabel ((classAt m_classes (classIndex r)).getD "") r.c2) ∧
      d.boxes.length = d.confidences.length ∧
      d.labels.length = d.confidences.length ∧
      (∀ r ∈ rows, r.c2 = m_confidenceTreshold → r.c2 ∈ d.confidences) ∧
      (∀ c ∈ d.confidences, m_confidenceTreshold ≤ c) := by
  refine ⟨_, decodeLoop_done m_classes m_confidenceTreshold currentFrameCols currentFrameRows rows
    { boxes := [], confidences := [], labels := [] } hvalid, ?_⟩
  refine ⟨rfl, rfl, rfl, ?_, ?_, ?_, ?_⟩
  · simp only [List.nil_append, List.length_map]
  · simp only [List.nil_append, List.length_map]
  · intro r hr heq
    simp only [List.nil_append, List.mem_map, List.mem_filter, decide_eq_true_eq]
    exact ⟨r, ⟨hr, heq.ge⟩, rfl⟩
  · simp only [List.nil_append, List.mem_map, List.mem_filter, decide_eq_true_eq]
    rintro c ⟨r, ⟨-, hle⟩, rfl⟩
    exact hle

/-- Witness of `decodeLoop_retains`: three rows with confidences 0.5, 0.49 and 0.9 against the
threshold 0.5; the first and the third are kept. -/
theorem decodeLoop_retains_witness :
    ∃ d, decodeLoop ["person", "car"] (1 / 2) 640 480
        [{ c0 := 0, c1 := 0, c2 := 1 / 2, c3 := 0, c4 := 0, c5 := 1, c6 := 1 },
         { c0 := 0, c1 := 1, c2 := 49 / 100, c3 := 0, c4 := 0, c5 := 1, c6 := 1 },
         { c0 := 0, c1 := 1, c2 := 9 / 10, c3 := 0, c4 := 0, c5 := 1 / 2, c6 := 1 / 2 }]
        { boxes := [], confidences := [], labels := [] } = Outcome.done d ∧
      d.confidences = [1 / 2, 9 / 10] := by
  obtain ⟨d, hd, hc, -⟩ := decodeLoop_retains ["person", "car"] (1 / 2) 640 480
    [{ c0 := 0, c1 := 0, c2 := 1 / 2, c3 := 0, c4 := 0, c5 := 1, c6 := 1 },
     { c0 := 0, c1 := 1, c2 := 49 / 100, c3 := 0, c4 := 0, c5 := 1, c6 := 1 },
     { c0 := 0, c1 := 1, c2 := 9 / 10, c3 := 0, c4 := 0, c5 := 1 / 2, c6 := 1 / 2 }]
    (by
      intro r hr _
      simp only [List.mem_cons, List.mem_singleton, List.not_mem_nil, or_false] at hr
      rcases hr with h | h | h <;> subst h <;> simp [classAt, classIndex, truncToInt])
  refine ⟨d, hd, ?_⟩
  rw [hc]
  norm_num [List.filter]

/-- C7 (counterexample). With one class name and a kept row whose class index is 5, the decoding
loop does not end with an error: the unchecked access makes its behaviour undefined. -/
theorem decodeLoop_classIndex_not_raised :
    (1 / 2 : ℚ) ≤ 9 / 10 ∧
    classAt ["person"]
      (classIndex { c0 := 0, c1 := 5, c2 := 9 / 10, c3 := 0, c4 := 0, c5 := 1, c6 := 1 }) = none ∧
    decodeLoop ["person"] (1 / 2) 640 480
        [{ c0 := 0, c1 := 5, c2 := 9 / 10, c3 := 0, c4 := 0, c5 := 1, c6 := 1 }]
        { boxes := [], confidences := [], labels := [] } = Outcome.undefinedBehaviour ∧
    ¬ ∃ what, decodeLoop ["person"] (1 / 2) 640 480
        [{ c0 := 0, c1 := 5, c2 := 9 / 10, c3 := 0, c4 := 0, c5 := 1, c6 := 1 }]
        { boxes := [], confidences := [], labels := [] } = Outcome.raised what := by
  have hidx : classAt ["person"]
      (classIndex { c0 := 0, c1 := 5, c2 := 9 / 10, c3 := 0, c4 := 0, c5 := 1, c6 := 1 }) =
      none := by
    simp [classAt, classIndex, truncToInt]
  have hub : decodeLoop ["person"] (1 / 2) 640 480
      [{ c0 := 0, c1 := 5, c2 := 9 / 10, c3 := 0, c4 := 0, c5 := 1, c6 := 1 }]
      { boxes := [], confidences := [], labels := [] } = Outcome.undefinedBehaviour := by
    rw [decodeLoop_undefined_iff]
    exact ⟨_, List.mem_singleton_self _, by norm_num, hidx⟩
  refine ⟨by norm_num, hidx, hub, ?_⟩
  rintro ⟨what, h⟩
  rw [hub] at h
  cases h

/-- C7 (as amended). A kept row whose class index is not a position of `m_classes` makes the
behaviour of the decoding loop undefined, the access being unchecked; when every kept row has a
class index that is a position of `m_classes`, the loop completes and builds each label from the
class name at that position. -/
theorem decodeLoop_classIndex (m_classes : List String) (m_confidenceTreshold : ℚ)
    (currentFrameCols currentFrameRows : Int) (rows : List Row) (acc : Decoded) :
    ((∃ r ∈ rows, m_confidenceTreshold ≤ r.c2 ∧ classAt m_classes (classIndex r) = none) →
      decodeLoop m_classes m_confidenceTreshold currentFrameCols currentFrameRows rows acc =
        Outcome.undefinedBehaviour) ∧
    ((∀ r ∈ rows, m_confidenceTreshold ≤ r.c2 → classAt m_classes (classIndex r) ≠ none) →
      ∃ d, decodeLoop m_classes m_confidenceTreshold currentFrameCols currentFrameRows rows acc =
          Outcome.done d ∧
        d.labels = acc.labels ++
          (rows.filter (fun r => decide (m_confidenceTreshold ≤ r.c2))).map
            (fun r => rowLabel ((classAt m_classes (classIndex r)).getD "") r.c2)) := by
  refine ⟨(decodeLoop_undefined_iff _ _ _ _ _ _).mpr, ?_⟩
  intro h
  exact ⟨_, decodeLoop_done _ _ _ _ _ _ h, rfl⟩


/-! ## The frame counter -/

theorem elapsedSeconds_add_milliseconds (t0 ms : Int) :
    elapsedSeconds t0 (t0 + ms * 1000000) = (ms : ℚ) / 1000 := by
  unfold elapsedSeconds durationCastMilliseconds
  have h : t0 + ms * 1000000 - t0 = ms * 1000000 := by ring
  rw [h, Int.mul_tdiv_cancel _ (by decide)]

theorem updateFps_within_second (t0 frameCount ms : Int) (fps : ℚ) (h : ms < 1000) :
    updateFps { lastTime := t0, frameCount := frameCount, fps := fps } (t0 + ms * 1000000) =
      { lastTime := t0, frameCount := frameCount + 1, fps := fps } := by
  have hq : ¬ ((ms : ℚ) / 1000 ≥ 1) := by
    have : (ms : ℚ) < 1000 := by exact_mod_cast h
    rw [ge_iff_le, le_div_iff₀ (by norm_num)]
    linarith
  simp only [updateFps, elapsedSeconds_add_milliseconds, hq, if_false]

theorem updateFps_iterate (t0 : Int) (n : Nat) (hn : n ≤ 30) :
    ((List.range n).map (fun (k : Nat) => t0 + 33 * ((k : Int) + 1) * 1000000)).foldl updateFps
        (FpsState.initial t0) =
      { lastTime := t0, frameCount := (n : Int), fps := 0 } := by
  induction n with
  | zero => simp [FpsState.initial]
  | succ n ih =>
    rw [List.range_succ, List.map_append, List.foldl_append, ih (Nat.le_of_succ_le hn)]
    simp only [List.map_cons, List.map_nil, List.foldl_cons, List.foldl_nil]
    rw [updateFps_within_second t0 n (33 * ((n : Int) + 1)) 0 (by omega)]
    simp

/-! ## The claims on suppression, drawing and the frame counter -/

/-- C5. A tick at time `now` on the state `(lastTime, frameCount, fps)`, with `elapsed` the whole
milliseconds between `lastTime` and `now` divided by 1000: if `elapsed ≥ 1` the new state is
`(now, 0, (frameCount + 1) / elapsed)`, otherwise `(lastTime, frameCount + 1, fps)`. From
`(t0, 0, 0)`, after each of the thirty ticks at `t0 + 33 k` ms the state is `(t0, k, 0)`, and the
31st tick at `t0 + 1023` ms gives `(t0 + 1023 ms, 0, 31 / 1.023)`. -/
theorem updateFps_tick (s : FpsState) (now t0 : Int) :
    elapsedSeconds s.lastTime now = ((Int.tdiv (now - s.lastTime) 1000000 : Int) : ℚ) / 1000 ∧
    updateFps s now =
      (if elapsedSeconds s.lastTime now ≥ 1 then
        { lastTime := now, frameCount := 0
          fps := ((s.frameCount + 1 : Int) : ℚ) / elapsedSeconds s.lastTime now }
       else { lastTime := s.lastTime, frameCount := s.frameCount + 1, fps := s.fps }) ∧
    (List.range 31).map (fun (n : Nat) =>
        ((List.range n).map (fun (k : Nat) => t0 + 33 * ((k : Int) + 1) * 1000000)).foldl updateFps
          (FpsState.initial t0)) =
      (List.range 31).map (fun (n : Nat) => { lastTime := t0, frameCount := (n : Int), fps := 0 }) ∧
    ((List.range 31).map (fun (k : Nat) => t0 + 33 * ((k : Int) + 1) * 1000000)).foldl updateFps
        (FpsState.initial t0) =
      { lastTime := t0 + 1023 * 1000000, frameCount := 0, fps := 31 / (1023 / 1000) } := by
  refine ⟨rfl, ?_, ?_, ?_⟩
  · unfold updateFps
    simp only
  · apply List.map_congr_left
    intro n hn
    exact updateFps_iterate t0 n (Nat.le_of_lt_succ (List.mem_range.mp hn))
  · rw [List.range_succ, List.map_append, List.foldl_append, updateFps_iterate t0 30 (le_refl _)]
    simp only [List.map_cons, List.map_nil, List.foldl_cons, List.foldl_nil]
    have he : elapsedSeconds t0 (t0 + 33 * (((30 : Nat) : Int) + 1) * 1000000) = 1023 / 1000 := by
      rw [elapsedSeconds_add_milliseconds]; norm_num
    simp only [updateFps, he]
    norm_num


/-- C6. For an accepted box of height `h` and a label whose height at font scale 1 is a positive
integer `L`, `drawBoxes` writes the label with font scale `(h * 0.1) / L` clamped to the interval
from 1 to 3: 1 when the raw value is below 1, 3 when it is above 3, the raw value otherwise.
With `h = 5`, `L = 50` the scale is 1 and with `h = 1000`, `L = 10` it is 3. -/
theorem drawBoxes_fontScale (getTextSize : String → Size × Int) (boxes : List Rect)
    (labels : List String) (indices : List Nat) (index : Nat) (box : Rect) (label : String)
    (hvalid : ∀ i ∈ indices, i < boxes.length ∧ i < labels.length)
    (hmem : index ∈ indices)
    (hbox : boxes.get? index = some box) (hlabel : labels.get? index = some label)
    (hL : 0 < (getTextSize label).1.height) :
    (∃ ops, drawBoxes getTextSize boxes labels indices = Outcome.done ops ∧
      DrawOp.putText label { x := box.x, y := box.y - (getTextSize label).2 }
        (max 1 (min 3 (((box.height : ℚ) * (1 / 10)) / ((getTextSize label).1.height : ℚ))))
        { v0 := 0, v1 := 0, v2 := 0 } 2 ∈ ops) ∧
    (((box.height : ℚ) * (1 / 10)) / ((getTextSize label).1.height : ℚ) < 1 →
      scaleFactor box.height (getTextSize label).1.height = 1) ∧
    (3 < ((box.height : ℚ) * (1 / 10)) / ((getTextSize label).1.height : ℚ) →
      scaleFactor box.height (getTextSize label).1.height = 3) ∧
    (1 ≤ ((box.height : ℚ) * (1 / 10)) / ((getTextSize label).1.height : ℚ) →
      ((box.height : ℚ) * (1 / 10)) / ((getTextSize label).1.height : ℚ) ≤ 3 →
      scaleFactor box.height (getTextSize label).1.height =
        ((box.height : ℚ) * (1 / 10)) / ((getTextSize label).1.height : ℚ)) ∧
    (box.height ≤ 0 → scaleFactor box.height (getTextSize label).1.height = 1) ∧
    scaleFactor 5 50 = 1 ∧ scaleFactor 1000 10 = 3 := by
  refine ⟨?_, ?_, ?_, ?_, ?_, ?_, ?_⟩
  · obtain ⟨ops, hops, hall⟩ := drawBoxes_done getTextSize boxes labels indices hvalid
    refine ⟨ops, hops, hall index hmem box label hbox hlabel _ ?_⟩
    rw [← scaleFactor_eq_clamp]
    simp [drawBox]
  · intro h
    rw [scaleFactor_eq_clamp, max_eq_left]
    exact le_trans (min_le_right _ _) h.le
  · intro h
    rw [scaleFactor_eq_clamp, min_eq_left h.le, max_eq_right]
    norm_num
  · intro h1 h3
    rw [scaleFactor_eq_clamp, min_eq_right h3, max_eq_right h1]
  · intro hneg
    have hL' : (0 : ℚ) < ((getTextSize label).1.height : ℚ) := by exact_mod_cast hL
    have hh : ((box.height : ℚ)) ≤ 0 := by exact_mod_cast hneg
    have hraw : ((box.height : ℚ) * (1 / 10)) / ((getTextSize label).1.height : ℚ) ≤ 0 :=
      div_nonpos_of_nonpos_of_nonneg (by linarith) hL'.le
    rw [scaleFactor_eq_clamp, max_eq_left]
    exact le_trans (min_le_right _ _) (by linarith)
  · norm_num [scaleFactor]
  · norm_num [scaleFactor]

/-- Witness of `drawBoxes_fontScale`: one accepted box of height 1000 whose label is 10 high at
scale 1; the label is written at scale 3. -/
theorem drawBoxes_fontScale_witness :
    ∃ ops, drawBoxes (fun _ => ({ width := 100, height := 10 }, 4))
        [{ x := 20, y := 30, width := 400, height := 1000 }] ["Person:0.87"] [0] =
          Outcome.done ops ∧
      DrawOp.putText "Person:0.87" { x := 20, y := 26 } 3 { v0 := 0, v1 := 0, v2 := 0 } 2 ∈ ops := by
  obtain ⟨ops, hops, hmem⟩ := (drawBoxes_fontScale (fun _ => ({ width := 100, height := 10 }, 4))
    [{ x := 20, y := 30, width := 400, height := 1000 }] ["Person:0.87"] [0] 0
    { x := 20, y := 30, width := 400, height := 1000 } "Person:0.87"
    (by simp) (by simp) rfl rfl (by decide)).1
  refine ⟨ops, hops, ?_⟩
  have h3 : max (1 : ℚ) (min 3 ((((1000 : Int) : ℚ) * (1 / 10)) / ((10 : Int) : ℚ))) = 3 := by
    norm_num
  have hy : (30 : Int) - 4 = 26 := by decide
  simp only [h3, hy] at hmem
  exact hmem

end ObjectDetector
